import Mathlib

/-!
Verification of the segmented-stream download and remux pipeline of the
videodownloader extension (files `background.js` and `mediaDetector.js`).

The JavaScript is shallowly embedded: byte buffers (`Uint8Array`) become
`List Nat`, JS numbers used as exact values become `ℚ`/`ℤ`/`ℕ` with the
32-bit conversions (`ToInt32`, `ToUint32`) made explicit, fallible
operations return `Option`, and the externally supplied collaborators
(network fetch, URL resolution, the mux.js library events) are parameters.
-/

namespace VidDL

/-- Bytes of a `Uint8Array`, as a list of naturals (idiomatically `< 256`). -/
abbrev Bytes := List Nat

/-- Read `data[i]`. Out-of-range JS reads give `undefined`; every place the
source reads possibly out of range feeds the value into bitwise arithmetic,
where `undefined` behaves as `0`, hence the default `0`. -/
def byteAt (data : Bytes) (i : Nat) : Nat := data.getD i 0

/-- JS `Math.round`: round half toward positive infinity. -/
def jsRound (q : ℚ) : ℤ := Int.floor (q + 1/2)

/-- JS `ToUint32`, the `x >>> 0` conversion on an integral number. -/
def jsToUint32 (x : ℤ) : ℤ := x.emod 4294967296

/-- JS `ToInt32`, the conversion applied by the bitwise operators. -/
def jsToInt32 (x : ℤ) : ℤ := (x + 2147483648).emod 4294967296 - 2147483648

/-- JS `(x >>> s) & 0xFF` for an integral number `x`. -/
def jsShrByte (x : ℤ) (s : Nat) : Nat := ((jsToUint32 x).toNat >>> s) % 256

/-- JS `(x >> s) & 0xFF`: arithmetic shift is floor division after `ToInt32`. -/
def jsSarByte (x : ℤ) (s : Nat) : Nat := ((Int.fdiv (jsToInt32 x) (2 ^ s)).emod 256).toNat

/-- JS `x & 0xFF`: the low 8 bits of the two's-complement representation. -/
def jsAndByte (x : ℤ) : Nat := (x.emod 256).toNat

/-- Big-endian 32-bit read
`((data[o] << 24) | (data[o+1] << 16) | (data[o+2] << 8) | data[o+3]) >>> 0`:
for byte values the shifted fields occupy disjoint bits, so the expression
equals this weighted sum (out-of-range reads contribute `0`). -/
def readU32 (data : Bytes) (o : Nat) : Nat :=
  byteAt data o * 16777216 + byteAt data (o + 1) * 65536 +
    byteAt data (o + 2) * 256 + byteAt data (o + 3)

/-- Test of the four tag bytes `m` `v` `h` `d` (0x6D 0x76 0x68 0x64) at index `i`
(`patchDuration`, `mediaDetector.js:280`). -/
def isMvhdAt (data : Bytes) (i : Nat) : Bool :=
  byteAt data i == 0x6D && byteAt data (i + 1) == 0x76 &&
    byteAt data (i + 2) == 0x68 && byteAt data (i + 3) == 0x64

/-- Scan loop `for (let i = 0; i < data.length - 4; i++)` searching the tag,
returning the first hit; `fuel` counts the remaining iterations. -/
def scanTag (data : Bytes) : Nat → Nat → Option Nat
  | _, 0 => none
  | i, fuel + 1 => if isMvhdAt data i then some i else scanTag data (i + 1) fuel

/-- First index holding the `mvhd` tag, `-1` in the source becoming `none`.
The JS loop bound `i < data.length - 4` never runs for `data.length < 4`
(negative bound), matching truncated subtraction here. -/
def findMvhd (data : Bytes) : Option Nat := scanTag data 0 (data.length - 4)

/-- Sequential stores `data[o] = b₀; data[o+1] = b₁; ...`. A `Uint8Array`
store out of range is a silent no-op, exactly like `List.set`. -/
def writeBytes (data : Bytes) (o : Nat) : List Nat → Bytes
  | [] => data
  | b :: bs => writeBytes (data.set o b) (o + 1) bs

/-- Offset of the 4-byte timescale field relative to the tag index `m`:
`version === 1` skips 8-byte creation/modification times, version 0 skips
4-byte ones (`mediaDetector.js:291-297`). -/
def tsOffset (data : Bytes) (m : Nat) : Nat :=
  if byteAt data (m + 4) = 1 then m + 4 + 4 + 8 + 8 else m + 4 + 4 + 4 + 4

/-- Version-1 duration field: 8 bytes, high then low 32 bits, big-endian;
`high = Math.floor(nd / 4294967296)`, `low = nd % 4294967296` (JS `%` keeps
the dividend's sign, `Int.tmod`). -/
def durationBytesV1 (nd : ℤ) : List Nat :=
  [jsSarByte (Int.fdiv nd 4294967296) 24, jsSarByte (Int.fdiv nd 4294967296) 16,
   jsSarByte (Int.fdiv nd 4294967296) 8, jsAndByte (Int.fdiv nd 4294967296),
   jsSarByte (Int.tmod nd 4294967296) 24, jsSarByte (Int.tmod nd 4294967296) 16,
   jsSarByte (Int.tmod nd 4294967296) 8, jsAndByte (Int.tmod nd 4294967296)]

/-- Version-0 duration field: 4 bytes big-endian via `>>>`. -/
def durationBytesV0 (nd : ℤ) : List Nat :=
  [jsShrByte nd 24, jsShrByte nd 16, jsShrByte nd 8, jsAndByte nd]

/-- Body of `patchDuration` once the tag has been located at `m`
(`mediaDetector.js:287-324`), with the source's local bindings
(`timescaleOffset`, `timescale`, `newDuration`, `durationOffset =
timescaleOffset + 4`) inlined: bail out on `timescale === 0`, otherwise
write the rounded duration in the width the version byte dictates. -/
def patchAt (data : Bytes) (durationSec : ℚ) (m : Nat) : Bytes :=
  if readU32 data (tsOffset data m) = 0 then data
  else if byteAt data (m + 4) = 1 then
    writeBytes data (tsOffset data m + 4)
      (durationBytesV1 (jsRound (durationSec * (readU32 data (tsOffset data m) : ℚ))))
  else
    writeBytes data (tsOffset data m + 4)
      (durationBytesV0 (jsRound (durationSec * (readU32 data (tsOffset data m) : ℚ))))

/-- Embedding of `patchDuration(initSegment, durationSec)`
(`mediaDetector.js:275-329`): `mvhdIndex === -1` returns the input
untouched. The surrounding `try`/`catch` never fires in this total model;
`durationSec`, a JS number, is modelled exactly as `ℚ`. -/
def patchDuration (initSegment : Bytes) (durationSec : ℚ) : Bytes :=
  (findMvhd initSegment).elim initSegment (patchAt initSegment durationSec)

theorem length_writeBytes (bs : List Nat) : ∀ (data : Bytes) (o : Nat),
    (writeBytes data o bs).length = data.length := by
  induction bs with
  | nil => intro data o; rfl
  | cons b bs ih =>
    intro data o
    simp [writeBytes, ih]

theorem getElem?_writeBytes_frame (bs : List Nat) : ∀ (data : Bytes) (o j : Nat),
    (j < o ∨ o + bs.length ≤ j) → (writeBytes data o bs)[j]? = data[j]? := by
  induction bs with
  | nil => intro data o j _; rfl
  | cons b bs ih =>
    intro data o j hj
    rw [List.length_cons] at hj
    have hne : o ≠ j := by rcases hj with h | h <;> omega
    have hj1 : j < o + 1 ∨ (o + 1) + bs.length ≤ j := by
      rcases hj with h | h
      · exact Or.inl (by omega)
      · exact Or.inr (by omega)
    calc (writeBytes (data.set o b) (o + 1) bs)[j]?
        = (data.set o b)[j]? := ih (data.set o b) (o + 1) j hj1
      _ = data[j]? := List.getElem?_set_ne hne

theorem byteAt_writeBytes_frame (bs : List Nat) (data : Bytes) (o j : Nat)
    (hj : j < o ∨ o + bs.length ≤ j) : byteAt (writeBytes data o bs) j = byteAt data j := by
  unfold byteAt
  rw [List.getD_eq_getElem?_getD, List.getD_eq_getElem?_getD,
    getElem?_writeBytes_frame bs data o j hj]

theorem set_writeBytes_comm (bs : List Nat) : ∀ (l : Bytes) (o j : Nat) (v : Nat), j < o →
    (writeBytes l o bs).set j v = writeBytes (l.set j v) o bs := by
  induction bs with
  | nil => intro l o j v _; rfl
  | cons b bs ih =>
    intro l o j v hj
    show (writeBytes (l.set o b) (o + 1) bs).set j v = writeBytes ((l.set j v).set o b) (o + 1) bs
    rw [ih (l.set o b) (o + 1) j v (by omega), List.set_comm _ _ _ (by omega : o ≠ j)]

theorem writeBytes_writeBytes (bs : List Nat) : ∀ (data : Bytes) (o : Nat),
    writeBytes (writeBytes data o bs) o bs = writeBytes data o bs := by
  induction bs with
  | nil => intro data o; rfl
  | cons b bs ih =>
    intro data o
    show writeBytes ((writeBytes (data.set o b) (o + 1) bs).set o b) (o + 1) bs =
      writeBytes (data.set o b) (o + 1) bs
    rw [set_writeBytes_comm bs (data.set o b) (o + 1) o b (by omega),
      List.set_set, ih (data.set o b) (o + 1)]

theorem length_durationBytesV1 (nd : ℤ) : (durationBytesV1 nd).length = 8 := rfl

theorem length_durationBytesV0 (nd : ℤ) : (durationBytesV0 nd).length = 4 := rfl

theorem tsOffset_ge (data : Bytes) (m : Nat) : m + 16 ≤ tsOffset data m := by
  unfold tsOffset; split <;> omega

theorem scanTag_le (data : Bytes) : ∀ (fuel i m : Nat),
    scanTag data i fuel = some m → i ≤ m := by
  intro fuel
  induction fuel with
  | zero => intro i m h; exact absurd h (by simp [scanTag])
  | succ fuel ih =>
    intro i m h
    unfold scanTag at h
    by_cases hi : isMvhdAt data i
    · rw [if_pos hi] at h
      have : i = m := by simpa using h
      omega
    · rw [if_neg hi] at h
      have := ih (i + 1) m h
      omega

theorem scanTag_stable (data dataB : Bytes) : ∀ (fuel i m : Nat),
    (∀ j, j ≤ m → isMvhdAt dataB j = isMvhdAt data j) →
    scanTag data i fuel = some m → scanTag dataB i fuel = some m := by
  intro fuel
  induction fuel with
  | zero => intro i m _ h; exact absurd h (by simp [scanTag])
  | succ fuel ih =>
    intro i m hcong h
    unfold scanTag at h ⊢
    by_cases hi : isMvhdAt data i
    · rw [if_pos hi] at h
      have him : i = m := by simpa using h
      rw [if_pos (by rw [hcong i (by omega)]; exact hi)]
      exact h
    · rw [if_neg hi] at h
      have hile : i + 1 ≤ m := scanTag_le data fuel (i + 1) m h
      rw [if_neg (by rw [hcong i (by omega)]; exact hi)]
      exact ih (i + 1) m hcong h

theorem tsOffset_congr (d1 d2 : Bytes) (m : Nat)
    (h : byteAt d1 (m + 4) = byteAt d2 (m + 4)) : tsOffset d1 m = tsOffset d2 m := by
  unfold tsOffset
  rw [h]

theorem writeAfterDuration_stable (data : Bytes) (m : Nat) (L : List Nat)
    (hfind : findMvhd data = some m) :
    findMvhd (writeBytes data (tsOffset data m + 4) L) = some m ∧
    byteAt (writeBytes data (tsOffset data m + 4) L) (m + 4) = byteAt data (m + 4) ∧
    tsOffset (writeBytes data (tsOffset data m + 4) L) m = tsOffset data m ∧
    readU32 (writeBytes data (tsOffset data m + 4) L) (tsOffset data m) =
      readU32 data (tsOffset data m) := by
  have h16 := tsOffset_ge data m
  have hfr : ∀ j, j < tsOffset data m + 4 →
      byteAt (writeBytes data (tsOffset data m + 4) L) j = byteAt data j := by
    intro j hj
    exact byteAt_writeBytes_frame L data (tsOffset data m + 4) j (Or.inl hj)
  have hv : byteAt (writeBytes data (tsOffset data m + 4) L) (m + 4) = byteAt data (m + 4) :=
    hfr (m + 4) (by omega)
  refine ⟨?_, hv, ?_, ?_⟩
  · unfold findMvhd at hfind ⊢
    rw [length_writeBytes]
    refine scanTag_stable data _ (data.length - 4) 0 m ?_ hfind
    intro j hj
    unfold isMvhdAt
    rw [hfr j (by omega), hfr (j + 1) (by omega), hfr (j + 2) (by omega),
      hfr (j + 3) (by omega)]
  · exact tsOffset_congr _ _ m hv
  · unfold readU32
    rw [hfr (tsOffset data m) (by omega), hfr (tsOffset data m + 1) (by omega),
      hfr (tsOffset data m + 2) (by omega), hfr (tsOffset data m + 3) (by omega)]

theorem patch_noop_of_none (data : Bytes) (d : ℚ) (h : findMvhd data = none) :
    patchDuration data d = data := by
  unfold patchDuration
  rw [h]
  rfl

theorem patch_noop_of_ts_zero (data : Bytes) (d : ℚ) (m : Nat)
    (hm : findMvhd data = some m) (hts : readU32 data (tsOffset data m) = 0) :
    patchDuration data d = data := by
  unfold patchDuration
  rw [hm]
  show patchAt data d m = data
  unfold patchAt
  rw [if_pos hts]

/-- C7: `patchDuration` never fails soft: if the 4-byte `mvhd` tag is not
found by the scan, or the 4-byte big-endian timescale read from the located
movie-header structure is zero, the input buffer is returned byte-identical. -/
theorem patchDuration_soft_noop (data : Bytes) (d : ℚ)
    (h : findMvhd data = none ∨
      ∃ m, findMvhd data = some m ∧ readU32 data (tsOffset data m) = 0) :
    patchDuration data d = data := by
  rcases h with h | ⟨m, hm, hts⟩
  · exact patch_noop_of_none data d h
  · exact patch_noop_of_ts_zero data d m hm hts

/-- Witness for C7: a buffer holding the tag at index 0 but too short to
hold a timescale field (JS reads past the end give 0) is left unmodified. -/
theorem patchDuration_soft_noop_witness :
    patchDuration [109, 118, 104, 100, 0] 3 = [109, 118, 104, 100, 0] :=
  patchDuration_soft_noop [109, 118, 104, 100, 0] 3
    (Or.inr ⟨0, by decide, by decide⟩)

/-- C8: on the write path (tag found, timescale nonzero) `patchDuration`
keeps the buffer length and changes no byte outside the duration field: the
write spans exactly 4 bytes at the field offset for version 0 and 8 bytes
for version 1, every byte before or after it being returned unchanged. -/
theorem patchDuration_frame (data : Bytes) (d : ℚ) (m : Nat)
    (hm : findMvhd data = some m) (hts : readU32 data (tsOffset data m) ≠ 0) :
    (patchDuration data d).length = data.length ∧
      ∀ j, (j < tsOffset data m + 4 ∨
          tsOffset data m + 4 + (if byteAt data (m + 4) = 1 then 8 else 4) ≤ j) →
        (patchDuration data d)[j]? = data[j]? := by
  have hpd : patchDuration data d = patchAt data d m := by
    unfold patchDuration; rw [hm]; rfl
  rw [hpd]
  unfold patchAt
  rw [if_neg hts]
  by_cases hv : byteAt data (m + 4) = 1
  · rw [if_pos hv]
    refine ⟨length_writeBytes _ data _, ?_⟩
    intro j hj
    rw [if_pos hv] at hj
    refine getElem?_writeBytes_frame _ data _ j ?_
    rw [length_durationBytesV1]
    exact hj
  · rw [if_neg hv]
    refine ⟨length_writeBytes _ data _, ?_⟩
    intro j hj
    rw [if_neg hv] at hj
    refine getElem?_writeBytes_frame _ data _ j ?_
    rw [length_durationBytesV0]
    exact hj

/-- Witness for C8 on a concrete 25-byte version-0 buffer: tag at index 0,
timescale 1 at offset 16, duration field at offsets 20-23; the length and
the byte at index 24 survive the patch. -/
theorem patchDuration_frame_witness :
    (patchDuration [109, 118, 104, 100, 0, 0, 0, 0, 0, 0, 0, 0, 0, 0, 0, 0,
        0, 0, 0, 1, 9, 9, 9, 9, 7] 5).length = 25 ∧
    (patchDuration [109, 118, 104, 100, 0, 0, 0, 0, 0, 0, 0, 0, 0, 0, 0, 0,
        0, 0, 0, 1, 9, 9, 9, 9, 7] 5)[24]? = some 7 := by
  have h := patchDuration_frame
    [109, 118, 104, 100, 0, 0, 0, 0, 0, 0, 0, 0, 0, 0, 0, 0,
      0, 0, 0, 1, 9, 9, 9, 9, 7] 5 0 (by decide) (by decide)
  refine ⟨h.1.trans (by decide), (h.2 24 ?_).trans (by decide)⟩
  decide

/-- C9: `patchDuration` (a pure function of its two arguments in this
embedding, hence deterministic) is idempotent: patching an already patched
buffer with the same duration finds the same tag index, version byte and
timescale — all of which lie outside the written field — and therefore
rewrites exactly the same bytes, leaving the buffer unchanged. -/
theorem patchDuration_idem (data : Bytes) (d : ℚ) :
    patchDuration (patchDuration data d) d = patchDuration data d := by
  rcases hfind : findMvhd data with _ | m
  · have h : patchDuration data d = data := patch_noop_of_none data d hfind
    rw [h]; exact h
  · by_cases hts : readU32 data (tsOffset data m) = 0
    · have h : patchDuration data d = data :=
        patch_noop_of_ts_zero data d m hfind hts
      rw [h]; exact h
    · by_cases hv : byteAt data (m + 4) = 1
      · have hL : patchDuration data d = writeBytes data (tsOffset data m + 4)
            (durationBytesV1 (jsRound (d * (readU32 data (tsOffset data m) : ℚ)))) := by
          unfold patchDuration
          rw [hfind]
          show patchAt data d m = _
          unfold patchAt
          rw [if_neg hts, if_pos hv]
        obtain ⟨hf2, hv2, ho2, hr2⟩ := writeAfterDuration_stable data m
          (durationBytesV1 (jsRound (d * (readU32 data (tsOffset data m) : ℚ)))) hfind
        have hL2 : patchDuration (writeBytes data (tsOffset data m + 4)
            (durationBytesV1 (jsRound (d * (readU32 data (tsOffset data m) : ℚ))))) d =
            writeBytes (writeBytes data (tsOffset data m + 4)
              (durationBytesV1 (jsRound (d * (readU32 data (tsOffset data m) : ℚ)))))
              (tsOffset data m + 4)
              (durationBytesV1 (jsRound (d * (readU32 data (tsOffset data m) : ℚ)))) := by
          unfold patchDuration
          rw [hf2]
          show patchAt _ d m = _
          unfold patchAt
          rw [ho2, hr2, if_neg hts, hv2, if_pos hv]
        rw [hL, hL2, writeBytes_writeBytes]
      · have hL : patchDuration data d = writeBytes data (tsOffset data m + 4)
            (durationBytesV0 (jsRound (d * (readU32 data (tsOffset data m) : ℚ)))) := by
          unfold patchDuration
          rw [hfind]
          show patchAt data d m = _
          unfold patchAt
          rw [if_neg hts, if_neg hv]
        obtain ⟨hf2, hv2, ho2, hr2⟩ := writeAfterDuration_stable data m
          (durationBytesV0 (jsRound (d * (readU32 data (tsOffset data m) : ℚ)))) hfind
        have hL2 : patchDuration (writeBytes data (tsOffset data m + 4)
            (durationBytesV0 (jsRound (d * (readU32 data (tsOffset data m) : ℚ))))) d =
            writeBytes (writeBytes data (tsOffset data m + 4)
              (durationBytesV0 (jsRound (d * (readU32 data (tsOffset data m) : ℚ)))))
              (tsOffset data m + 4)
              (durationBytesV0 (jsRound (d * (readU32 data (tsOffset data m) : ℚ)))) := by
          unfold patchDuration
          rw [hf2]
          show patchAt _ d m = _
          unfold patchAt
          rw [ho2, hr2, if_neg hts, hv2, if_neg hv]
        rw [hL, hL2, writeBytes_writeBytes]

theorem length_patchDuration (data : Bytes) (d : ℚ) :
    (patchDuration data d).length = data.length := by
  unfold patchDuration
  cases h : findMvhd data with
  | none => rfl
  | some m =>
    show (patchAt data d m).length = _
    unfold patchAt
    split
    · rfl
    · split <;> exact length_writeBytes _ data _

/-- Event delivered by the mux.js `data` callback
(`mediaDetector.js:141-155`): the library may attach an initialization
segment and/or a media fragment. An absent (`undefined`/`null`) part is
`none`; a present `Uint8Array` is truthy even when empty. -/
structure TmEvent where
  initSegment : Option Bytes
  data : Option Bytes

/-- One run of the `transmuxer.on('data', ...)` handler body: capture the
init segment only while the captured one is still `null`, and append every
delivered media fragment to `segments`. -/
def tmStep (acc : Option Bytes × List Bytes) (e : TmEvent) : Option Bytes × List Bytes :=
  ((match e.initSegment with
    | some b => if acc.1.isNone then some b else acc.1
    | none => acc.1),
   (match e.data with
    | some frag => acc.2 ++ [frag]
    | none => acc.2))

/-- Accumulated `(initSegment, segments)` after the library has emitted the
event list `evs` across all pushes and the final flush. -/
def collectEvents (evs : List TmEvent) : Option Bytes × List Bytes :=
  evs.foldl tmStep (none, [])

/-- Response of the `transmux` message handler: `status:'success'` carries
the debug counts `out` (fragments) and `size`; everything thrown becomes
`status:'error'`. -/
inductive TmResult
  | ok (fragments : Nat) (size : Nat)
  | err
deriving DecidableEq

/-- Embedding of the assembly tail of the `transmux` handler
(`mediaDetector.js:170-198`): patch the retained init segment when the
requested duration is truthy (nonzero), concatenate it with the collected
media fragments, and fail when the resulting blob has zero bytes. The
events emitted by the external library are the parameter `evs`. -/
def transmux (evs : List TmEvent) (duration : ℚ) : TmResult :=
  match collectEvents evs with
  | (some init, segs) =>
    let finalData := (if duration = 0 then init else patchDuration init duration) :: segs
    if (finalData.map List.length).sum = 0 then TmResult.err
    else TmResult.ok segs.length ((finalData.map List.length).sum)
  | (none, segs) =>
    if (segs.map List.length).sum = 0 then TmResult.err
    else TmResult.ok segs.length ((segs.map List.length).sum)

-- ## Manifest parsing and variant selection (`background.js`)
--
-- JS strings are embedded as `List Char` (the `String` runtime functions of
-- Lean recurse on byte positions, which a kernel-evaluated witness cannot
-- unfold; character lists carry the same information structurally).

/-- JS `text.split('\n')`: split at every newline, keeping empty pieces. -/
def splitNlAux : List Char → List Char → List (List Char)
  | [], acc => [acc.reverse]
  | c :: cs, acc =>
    if c == '\n' then acc.reverse :: splitNlAux cs [] else splitNlAux cs (c :: acc)

def splitNl (s : List Char) : List (List Char) := splitNlAux s []

/-- JS `s.trim()`: strip leading and trailing whitespace. -/
def jsTrim (s : List Char) : List Char :=
  ((s.dropWhile Char.isWhitespace).reverse.dropWhile Char.isWhitespace).reverse

/-- JS `String.prototype.includes`: substring test. -/
def strContains (s sub : List Char) : Bool :=
  (List.range (s.length + 1)).any (fun i => sub.isPrefixOf (s.drop i))

/-- Value of a run of decimal digit characters, as `parseInt` reads it. -/
def natOfDigits (ds : List Char) : Nat := ds.foldl (fun n c => n * 10 + (c.toNat - 48)) 0

/-- Match of the regex `BANDWIDTH=(\d+)` anchored at position `i`: the
literal followed by at least one digit, the capture being the maximal digit
run. -/
def bwMatchAt (l : List Char) (i : Nat) : Option Nat :=
  if ("BANDWIDTH=".toList).isPrefixOf (l.drop i) then
    let ds := ((l.drop i).drop 10).takeWhile Char.isDigit
    if ds.isEmpty then none else some (natOfDigits ds)
  else none

/-- First match of `line.match(/BANDWIDTH=(\d+)/)`, scanning positions left
to right as the regex engine does; `none` models a `null` match. -/
def parseBandwidth (line : List Char) : Option Nat :=
  (List.range line.length).findSome? (bwMatchAt line)

/-- Body of the variant-selection loop (`background.js:260-274`) at index
`i`: a line containing `BANDWIDTH` is a candidate, its bandwidth taken as 0
when the regex does not match; a strictly greater bandwidth replaces the
accumulator with `(lines[i+1]?.trim(), bw)` (`undefined` past the end,
hence the `Option`). -/
def selectStep (lines : List (List Char)) (acc : Option (List Char) × Nat) (i : Nat) :
    Option (List Char) × Nat :=
  if strContains (lines.getD i []) ("BANDWIDTH".toList) then
    let bw := (parseBandwidth (lines.getD i [])).getD 0
    if bw > acc.2 then ((lines[i + 1]?).map jsTrim, bw) else acc
  else acc

/-- The `for (let i = 0; i < lines.length; i++)` selection loop, `fuel`
counting the remaining iterations. -/
def selectLoop (lines : List (List Char)) : Nat → Nat → (Option (List Char) × Nat) →
    Option (List Char) × Nat
  | _, 0, acc => acc
  | i, fuel + 1, acc => selectLoop lines (i + 1) fuel (selectStep lines acc i)

/-- Final `(bestUrl, maxH)` of the variant scan, starting from
`bestUrl = null, maxH = 0`. -/
def selectVariant (lines : List (List Char)) : Option (List Char) × Nat :=
  selectLoop lines 0 lines.length (none, 0)

/-- Bandwidth the loop associates with line `j`: 0 when the line lacks the
`BANDWIDTH` marker or the regex fails, otherwise the captured number. -/
def bwAt (lines : List (List Char)) (j : Nat) : Nat :=
  if strContains (lines.getD j []) ("BANDWIDTH".toList) then
    (parseBandwidth (lines.getD j [])).getD 0
  else 0

/-- `video.url.substring(0, video.url.lastIndexOf('/') + 1)`: the prefix up
to and including the last slash, empty when there is none. -/
def baseOf (url : List Char) : List Char :=
  match url.reverse.findIdx? (· == '/') with
  | none => []
  | some k => url.take (url.length - k)

/-- Truthy `bestUrl` handling of `background.js:275-283`: `null` or the
empty string select nothing; a chosen URL not starting with `http` is
joined onto the base of `video.url`. -/
def chooseVariantUrl (url text : List Char) : Option (List Char) :=
  match (selectVariant (splitNl text)).1 with
  | none => none
  | some u => if u = [] then none
    else some (if ("http".toList).isPrefixOf u then u else baseOf url ++ u)

/-- Steps 1-2 of `downloadHLS` (`background.js:256-287`) after the manifest
text has arrived: on a master manifest (`#EXT-X-STREAM-INF` present) select
the best variant; a truthy `bestUrl` is re-fetched as the effective
manifest (`fetchVariant` returning `none` models the fetch throwing, which
the outer `catch` turns into a failed session); otherwise the master text
itself stays the effective manifest, `video.url` unchanged. -/
def effectiveManifest (url text : List Char)
    (fetchVariant : List Char → Option (List Char)) :
    Option (List Char × List Char) :=
  if strContains text ("#EXT-X-STREAM-INF".toList) then
    match chooseVariantUrl url text with
    | some u2 => (fetchVariant u2).map (fun t => (u2, t))
    | none => some (url, text)
  else some (url, text)

/-- `HLSParser.getSegments` (`background.js:495-497`): every non-blank line
not starting with `#`, trimmed and resolved against the base URL. The
browser's `new URL(line, base).href` is the external parameter `resolve`. -/
def getSegments (resolve : List Char → List Char → List Char)
    (base text : List Char) : List (List Char) :=
  ((splitNl text).filter
    (fun l => !(jsTrim l == []) && !(['#'].isPrefixOf (jsTrim l)))).map
    (fun l => resolve base (jsTrim l))

/-- Terminal outcome of the JS fallback `downloadHLS` session, as decided
by `background.js:246-442`: the thrown errors caught by the outer handler
(fetch failure, `DRM Protected`, `No segments found`, `Download failed`)
and, otherwise, the hand-off of the fetched chunks to the transmux stage. -/
inductive DLResult
  | fetchError
  | drmProtected
  | noSegments
  | downloadFailed
  | transmuxed (chunks : List Bytes)
deriving DecidableEq

/-- Segment loop (`background.js:340-359`): each iteration first observes
the cancellation flag and breaks when it is set, otherwise attempts the
segment; `fetchSeg i = none` models every caught failure of
`downloadSegment` (both fetch strategies failing, empty body, HTML sniff,
or the throw on a flag observed inside the helper), which merely skips the
segment. The returned list pairs each attempted index with its outcome. -/
def segmentLoop (cancelled : Nat → Bool) (fetchSeg : Nat → Option Bytes) :
    Nat → Nat → List (Nat × Option Bytes)
  | _, 0 => []
  | i, fuel + 1 =>
    if cancelled i then []
    else (i, fetchSeg i) :: segmentLoop cancelled fetchSeg (i + 1) fuel

/-- Chunks handed to the transmuxer: `chunks.filter(c => c)` keeps the
successfully fetched buffers in ascending index order. -/
def fedChunks (res : List (Nat × Option Bytes)) : List Bytes :=
  res.filterMap (fun p => p.2)

/-- The source's `downloaded` counter: one increment per successful
segment. -/
def downloadedCount (res : List (Nat × Option Bytes)) : Nat := (fedChunks res).length

/-- Steps 3-6 of `downloadHLS` on the effective manifest `(u, t)`: DRM
check, segment extraction, `No segments found`, the segment loop,
`Download failed` on zero successes, otherwise hand-off to transmux. -/
def afterManifest (resolve : List Char → List Char → List Char)
    (cancelled : Nat → Bool) (fetchSeg : Nat → Option Bytes)
    (u t : List Char) : DLResult :=
  if strContains t ("#EXT-X-KEY".toList) then DLResult.drmProtected
  else if (getSegments resolve u t).length = 0 then DLResult.noSegments
  else if downloadedCount
      (segmentLoop cancelled fetchSeg 0 (getSegments resolve u t).length) = 0 then
    DLResult.downloadFailed
  else DLResult.transmuxed
    (fedChunks (segmentLoop cancelled fetchSeg 0 (getSegments resolve u t).length))

/-- Embedding of the JS fallback `downloadHLS` (`background.js:229-442`)
from the point the manifest text `text` for `url` has been fetched. -/
def downloadHLS (url text : List Char) (fetchVariant : List Char → Option (List Char))
    (resolve : List Char → List Char → List Char) (cancelled : Nat → Bool)
    (fetchSeg : Nat → Option Bytes) : DLResult :=
  (effectiveManifest url text fetchVariant).elim DLResult.fetchError
    (fun p => afterManifest resolve cancelled fetchSeg p.1 p.2)

/-- `HLSParser.getVariants` (`background.js:510`): the empty list for every
parser state `(base, text)`. -/
def getVariants (_base _text : List Char) : List (List Char) := []

/-- `handleGetVariants` (`background.js:131-139`): parse the fetched text
and return its variants, or an empty list when the fetch throws
(`fetched = none`). -/
def handleGetVariants (url : List Char) (fetched : Option (List Char)) :
    List (List Char) :=
  (fetched.map (fun text => getVariants url text)).getD []

-- ## Transmux feed: retained init segment and failure condition

theorem foldl_init_some (evs : List TmEvent) : ∀ (acc : Option Bytes × List Bytes) (b : Bytes),
    acc.1 = some b → (evs.foldl tmStep acc).1 = some b := by
  induction evs with
  | nil => intro acc b h; exact h
  | cons e evs ih =>
    intro acc b h
    rw [List.foldl_cons]
    refine ih (tmStep acc e) b ?_
    cases he : e.initSegment <;> simp [tmStep, he, h]

theorem collect_first (evs : List TmEvent) : ∀ (lst : List Bytes),
    (evs.foldl tmStep (none, lst)).1 = evs.findSome? (fun e => e.initSegment) := by
  induction evs with
  | nil => intro lst; rfl
  | cons e evs ih =>
    intro lst
    rw [List.foldl_cons, List.findSome?_cons]
    cases he : e.initSegment with
    | none =>
      have hstep : tmStep (none, lst) e =
          (none, match e.data with | some frag => lst ++ [frag] | none => lst) := by
        simp [tmStep, he]
      rw [hstep, ih]
    | some c =>
      have hstep : tmStep (none, lst) e =
          (some c, match e.data with | some frag => lst ++ [frag] | none => lst) := by
        simp [tmStep, he]
      rw [hstep, foldl_init_some evs _ c rfl]

/-- C6: during one transmux feed only the first initialization segment the
library emits is retained (`collectEvents` agrees with "first event carrying
an init segment"), and once the retained `initSegment` is set it survives
any further emitted events unchanged, every later init segment being
discarded. -/
theorem transmux_first_init_retained (evs evs1 evs2 : List TmEvent) (b : Bytes) :
    (collectEvents evs).1 = evs.findSome? (fun e => e.initSegment) ∧
    ((collectEvents evs1).1 = some b → (collectEvents (evs1 ++ evs2)).1 = some b) := by
  constructor
  · exact collect_first evs []
  · intro h
    unfold collectEvents at h ⊢
    rw [List.foldl_append]
    exact foldl_init_some evs2 _ b h

/-- Witness for C6: of two emitted init segments the first (`[1]`) is
retained, both in one feed and across an appended continuation. -/
theorem transmux_first_init_retained_witness :
    (collectEvents [TmEvent.mk (some [1]) none, TmEvent.mk (some [2]) (some [3])]).1 =
      some [1] ∧
    (collectEvents ([TmEvent.mk (some [1]) none] ++ [TmEvent.mk (some [2]) none])).1 =
      some [1] := by
  have h := transmux_first_init_retained
    [TmEvent.mk (some [1]) none, TmEvent.mk (some [2]) (some [3])]
    [TmEvent.mk (some [1]) none] [TmEvent.mk (some [2]) none] [1]
  exact ⟨h.1.trans (by decide), h.2 (by decide)⟩

/-- Counterexample to C2 as stated: a feed that produces zero media
fragments but a nonempty initialization segment reports success (the source
only checks `blob.size === 0`, and the init segment alone already makes the
blob nonempty), not a transmux failure. -/
theorem transmux_zero_fragments_can_succeed :
    transmux [TmEvent.mk (some [0]) none] 0 = TmResult.ok 0 1 := by decide

/-- C2 amended: with zero media fragments at the end of the feed, the
handler fails precisely when the assembled blob is empty, i.e. when the
retained initialization segment is absent or itself empty (patching
preserves length); a nonempty retained init segment yields success even
with zero fragments. -/
theorem transmux_zero_fragments_err_iff (evs : List TmEvent) (duration : ℚ)
    (h : (collectEvents evs).2 = []) :
    (transmux evs duration = TmResult.err ↔
      (collectEvents evs).1.elim 0 List.length = 0) := by
  unfold transmux
  rcases hc : collectEvents evs with ⟨init, segs⟩
  rw [hc] at h
  simp only at h
  subst h
  cases init with
  | none => simp
  | some i0 =>
    have hl : (if duration = 0 then i0 else patchDuration i0 duration).length = i0.length := by
      split
      · rfl
      · exact length_patchDuration i0 duration
    by_cases hz : i0.length = 0 <;> simp [hl, hz]

/-- Witness for C2: a feed with zero fragments and no init segment fails. -/
theorem transmux_zero_fragments_err_iff_witness :
    transmux [TmEvent.mk none none] 0 = TmResult.err :=
  (transmux_zero_fragments_err_iff [TmEvent.mk none none] 0 (by decide)).mpr (by decide)

-- ## Variant selection: argmax behaviour

theorem selectStep_eq (lines : List (List Char)) (acc : Option (List Char) × Nat) (i : Nat) :
    selectStep lines acc i =
      if bwAt lines i > acc.2 then ((lines[i + 1]?).map jsTrim, bwAt lines i) else acc := by
  unfold selectStep bwAt
  by_cases h : strContains (lines.getD i []) ("BANDWIDTH".toList) = true
  · rw [if_pos h, if_pos h]
  · rw [if_neg h, if_neg h, if_neg (by omega : ¬ (0 > acc.2))]

theorem selectLoop_const (lines : List (List Char)) : ∀ (fuel i : Nat)
    (acc : Option (List Char) × Nat),
    (∀ j, i ≤ j → j < i + fuel → bwAt lines j ≤ acc.2) →
    selectLoop lines i fuel acc = acc := by
  intro fuel
  induction fuel with
  | zero => intro i acc _; rfl
  | succ fuel ih =>
    intro i acc hle
    show selectLoop lines (i + 1) fuel (selectStep lines acc i) = acc
    rw [selectStep_eq,
      if_neg (by have := hle i (by omega) (by omega); omega)]
    exact ih (i + 1) acc (fun j h1 h2 => hle j (by omega) (by omega))

theorem selectLoop_argmax (lines : List (List Char)) (mi B : Nat)
    (hbw : bwAt lines mi = B)
    (hfirst : ∀ j, j < mi → bwAt lines j < B)
    (hmax : ∀ j, j < lines.length → bwAt lines j ≤ B) :
    ∀ (fuel i : Nat) (acc : Option (List Char) × Nat),
    acc.2 < B → i ≤ mi → mi < i + fuel → i + fuel ≤ lines.length →
    selectLoop lines i fuel acc = ((lines[mi + 1]?).map jsTrim, B) := by
  intro fuel
  induction fuel with
  | zero => intro i acc _ h1 h2 _; exact absurd h2 (by omega)
  | succ fuel ih =>
    intro i acc hacc h1 h2 h3
    show selectLoop lines (i + 1) fuel (selectStep lines acc i) = _
    by_cases him : i = mi
    · subst him
      rw [selectStep_eq, if_pos (by omega : bwAt lines i > acc.2), hbw]
      exact selectLoop_const lines fuel (i + 1) _
        (fun j hj1 hj2 => by simpa using hmax j (by omega))
    · have hlt : i < mi := by omega
      have hbi : bwAt lines i < B := hfirst i hlt
      rw [selectStep_eq]
      by_cases hup : bwAt lines i > acc.2
      · rw [if_pos hup]
        exact ih (i + 1) _ (by simpa using hbi) (by omega) (by omega) (by omega)
      · rw [if_neg hup]
        exact ih (i + 1) acc hacc (by omega) (by omega) (by omega)

/-- Counterexample to C3 as stated: a master manifest whose only
stream-variant directive carries `BANDWIDTH=0` has a nonempty variant set
with maximum bandwidth 0, yet the scan selects nothing (`bestUrl` stays
`null`, the guard being the strict `bw > maxH` against the initial
`maxH = 0`), so the session keeps the master text instead of the variant. -/
theorem selectVariant_zero_bandwidth_unselected :
    selectVariant ["#EXT-X-STREAM-INF:BANDWIDTH=0".toList, "v.m3u8".toList] = (none, 0) := by
  decide

/-- C3 amended: on a master manifest the scan selects the variant of
maximal bandwidth, first occurrence winning ties, provided that maximal
bandwidth is positive (a maximal bandwidth of 0 never beats the initial
accumulator and selects nothing): if line `mi` attains the maximal
bandwidth `B > 0` and every earlier line has a strictly smaller one, the
selection is `(lines[mi+1].trim(), B)`. -/
theorem selectVariant_argmax_first (lines : List (List Char)) (mi B : Nat)
    (hpos : 0 < B) (hbw : bwAt lines mi = B)
    (hfirst : ∀ j, j < mi → bwAt lines j < B)
    (hmax : ∀ j, j < lines.length → bwAt lines j ≤ B)
    (hmi : mi < lines.length) :
    selectVariant lines = ((lines[mi + 1]?).map jsTrim, B) :=
  selectLoop_argmax lines mi B hbw hfirst hmax lines.length 0 (none, 0) hpos
    (by omega) (by omega) (by omega)

/-- Witness for C3 on a six-line master: bandwidths 100, 500, 500; the
first line attaining the maximum 500 (index 2) wins, selecting
`high.m3u8`. -/
theorem selectVariant_argmax_first_witness :
    selectVariant ["#EXT-X-STREAM-INF:BANDWIDTH=100".toList, "low.m3u8".toList,
      "#EXT-X-STREAM-INF:BANDWIDTH=500".toList, "high.m3u8".toList,
      "#EXT-X-STREAM-INF:BANDWIDTH=500".toList, "dup.m3u8".toList] =
      (some "high.m3u8".toList, 500) := by
  have h := selectVariant_argmax_first
    ["#EXT-X-STREAM-INF:BANDWIDTH=100".toList, "low.m3u8".toList,
      "#EXT-X-STREAM-INF:BANDWIDTH=500".toList, "high.m3u8".toList,
      "#EXT-X-STREAM-INF:BANDWIDTH=500".toList, "dup.m3u8".toList] 2 500
    (by omega) (by decide)
    (by intro j hj; interval_cases j <;> decide)
    (by intro j hj
        have hj6 : j < 6 := by simpa using hj
        interval_cases j <;> decide)
    (by decide)
  exact h.trans (by decide)

-- ## Session pipeline: cancellation, failure policy, master-of-master

theorem downloadHLS_afterManifest (url text : List Char)
    (fetchVariant : List Char → Option (List Char))
    (resolve : List Char → List Char → List Char) (cancelled : Nat → Bool)
    (fetchSeg : Nat → Option Bytes) (u t : List Char)
    (hman : effectiveManifest url text fetchVariant = some (u, t)) :
    downloadHLS url text fetchVariant resolve cancelled fetchSeg =
      afterManifest resolve cancelled fetchSeg u t := by
  unfold downloadHLS
  rw [hman]
  rfl

theorem segmentLoop_halt (cancelled : Nat → Bool) (fetchSeg : Nat → Option Bytes)
    (k : Nat) (hck : cancelled k = true) : ∀ (fuel i : Nat),
    (∀ j, i ≤ j → j < k → cancelled j = false) → i ≤ k → k < i + fuel →
    segmentLoop cancelled fetchSeg i fuel =
      (List.range' i (k - i)).map (fun j => (j, fetchSeg j)) := by
  intro fuel
  induction fuel with
  | zero => intro i _ h1 h2; exact absurd h2 (by omega)
  | succ fuel ih =>
    intro i hun h1 h2
    show (if cancelled i then [] else (i, fetchSeg i) ::
      segmentLoop cancelled fetchSeg (i + 1) fuel) = _
    by_cases him : i = k
    · rw [if_pos (by rw [him]; exact hck)]
      rw [him, show k - k = 0 from by omega]
      rfl
    · have hlt : i < k := by omega
      rw [if_neg (by rw [hun i (by omega) hlt]; exact Bool.false_ne_true)]
      rw [ih (i + 1) (fun j hj1 hj2 => hun j (by omega) hj2) (by omega) (by omega)]
      rw [show k - i = (k - (i + 1)) + 1 from by omega, List.range'_succ, List.map_cons]

/-- Counterexample to C1 as stated: on a ten-segment media manifest with the
cancellation flag set once two segments have been fetched, the loop does
halt, but the session then proceeds to the transmux stage with the two
fetched chunks (the post-loop check only fails on zero successes, and no
`Cancelled` terminal state exists on this path) instead of ending
`Cancelled` without invoking the transmuxer. -/
theorem cancelAfterTwoOfTen_reaches_transmux :
    downloadHLS "u".toList
      ("seg0.ts\nseg1.ts\nseg2.ts\nseg3.ts\nseg4.ts\nseg5.ts\nseg6.ts\nseg7.ts\nseg8.ts\nseg9.ts").toList
      (fun _ => none) (fun _ l => l) (fun i => decide (2 ≤ i)) (fun _ => some [71]) =
      DLResult.transmuxed [[71], [71]] := by
  decide

/-- C1 amended: with the flag observed false before each of the first `k`
iterations and true at checkpoint `k < n`, the segment loop halts having
attempted exactly the segments of index `0..k-1` (no further fetch);
the session then continues past the loop: it fails (`Download failed`) when
none of those `k` attempts succeeded and otherwise hands the fetched chunks
to the transmux stage — the embedding has no `Cancelled` terminal state
because `background.js` defines none for this path. -/
theorem downloadHLS_cancel_halts_then_proceeds (url text : List Char)
    (fetchVariant : List Char → Option (List Char))
    (resolve : List Char → List Char → List Char) (cancelled : Nat → Bool)
    (fetchSeg : Nat → Option Bytes) (u t : List Char) (k n : Nat)
    (hman : effectiveManifest url text fetchVariant = some (u, t))
    (hdrm : strContains t ("#EXT-X-KEY".toList) = false)
    (hseg : (getSegments resolve u t).length = n)
    (hun : ∀ j, j < k → cancelled j = false) (hck : cancelled k = true)
    (hkn : k < n) :
    segmentLoop cancelled fetchSeg 0 n =
      (List.range k).map (fun j => (j, fetchSeg j)) ∧
    (downloadedCount (segmentLoop cancelled fetchSeg 0 n) = 0 →
      downloadHLS url text fetchVariant resolve cancelled fetchSeg =
        DLResult.downloadFailed) ∧
    (downloadedCount (segmentLoop cancelled fetchSeg 0 n) ≠ 0 →
      downloadHLS url text fetchVariant resolve cancelled fetchSeg =
        DLResult.transmuxed (fedChunks (segmentLoop cancelled fetchSeg 0 n))) := by
  have hloop : segmentLoop cancelled fetchSeg 0 n =
      (List.range k).map (fun j => (j, fetchSeg j)) := by
    rw [List.range_eq_range', show k = k - 0 from by omega]
    exact segmentLoop_halt cancelled fetchSeg k hck n 0
      (fun j _ hj => hun j hj) (by omega) (by omega)
  refine ⟨hloop, ?_, ?_⟩ <;> intro hd <;>
    rw [downloadHLS_afterManifest url text fetchVariant resolve cancelled fetchSeg u t hman] <;>
    unfold afterManifest <;>
    rw [hdrm] <;> simp only [Bool.false_eq_true, if_false] <;>
    rw [hseg, if_neg (by omega : ¬ n = 0)]
  · rw [if_pos hd]
  · rw [if_neg hd]

/-- Witness for C1 at a three-segment manifest cancelled after one
successful fetch: only segment 0 is attempted and the session hands `[[5]]`
to the transmuxer. -/
theorem downloadHLS_cancel_halts_then_proceeds_witness :
    segmentLoop (fun i => decide (1 ≤ i)) (fun _ => some [5]) 0 3 =
      (List.range 1).map (fun j => (j, some [5])) ∧
    downloadHLS "u".toList ("a.ts\nb.ts\nc.ts").toList (fun _ => none) (fun _ l => l)
      (fun i => decide (1 ≤ i)) (fun _ => some [5]) = DLResult.transmuxed [[5]] := by
  have h := downloadHLS_cancel_halts_then_proceeds "u".toList ("a.ts\nb.ts\nc.ts").toList
    (fun _ => none) (fun _ l => l) (fun i => decide (1 ≤ i)) (fun _ => some [5])
    "u".toList ("a.ts\nb.ts\nc.ts").toList 1 3
    (by decide) (by decide) (by decide)
    (by intro j hj; interval_cases j; decide) (by decide) (by omega)
  exact ⟨h.1, (h.2.2 (by decide)).trans (by decide)⟩

/-- C5: once the session has reached the segment loop over `n ≥ 1` segments
it fails (`Download failed`) precisely when zero of the attempted segment
fetches succeeded; any nonzero success count instead hands the fetched
chunks to the transmux stage. -/
theorem downloadHLS_failed_iff_zero_success (url text : List Char)
    (fetchVariant : List Char → Option (List Char))
    (resolve : List Char → List Char → List Char) (cancelled : Nat → Bool)
    (fetchSeg : Nat → Option Bytes) (u t : List Char) (n : Nat)
    (hman : effectiveManifest url text fetchVariant = some (u, t))
    (hdrm : strContains t ("#EXT-X-KEY".toList) = false)
    (hseg : (getSegments resolve u t).length = n) (hn : 0 < n) :
    (downloadHLS url text fetchVariant resolve cancelled fetchSeg =
        DLResult.downloadFailed ↔
      downloadedCount (segmentLoop cancelled fetchSeg 0 n) = 0) ∧
    (downloadedCount (segmentLoop cancelled fetchSeg 0 n) ≠ 0 →
      downloadHLS url text fetchVariant resolve cancelled fetchSeg =
        DLResult.transmuxed (fedChunks (segmentLoop cancelled fetchSeg 0 n))) := by
  rw [downloadHLS_afterManifest url text fetchVariant resolve cancelled fetchSeg u t hman]
  unfold afterManifest
  rw [hdrm]
  simp only [Bool.false_eq_true, if_false]
  rw [hseg, if_neg (by omega : ¬ n = 0)]
  by_cases hd : downloadedCount (segmentLoop cancelled fetchSeg 0 n) = 0
  · rw [if_pos hd]
    exact ⟨⟨fun _ => hd, fun _ => rfl⟩, fun hc => absurd hd hc⟩
  · rw [if_neg hd]
    exact ⟨⟨fun hc => absurd hc (by simp), fun hc => absurd hc hd⟩, fun _ => rfl⟩

/-- Witness for C5: two segments, the first failing and the second
succeeding — a 1-of-2 partial success reaches the transmux hand-off. -/
theorem downloadHLS_failed_iff_zero_success_witness :
    downloadHLS "u".toList ("#EXTINF:4,\nseg0.ts\n#EXTINF:4,\nseg1.ts").toList
      (fun _ => none) (fun _ l => l) (fun _ => false)
      (fun i => if i = 0 then none else some [7]) = DLResult.transmuxed [[7]] := by
  have h := downloadHLS_failed_iff_zero_success "u".toList
    ("#EXTINF:4,\nseg0.ts\n#EXTINF:4,\nseg1.ts").toList
    (fun _ => none) (fun _ l => l) (fun _ => false)
    (fun i => if i = 0 then none else some [7]) "u".toList
    ("#EXTINF:4,\nseg0.ts\n#EXTINF:4,\nseg1.ts").toList 2
    (by decide) (by decide) (by decide) (by omega)
  exact (h.2 (by decide)).trans (by decide)

/-- Counterexample to C4 as stated: a master manifest selecting a variant
whose fetched manifest is itself a master does not fail `NoSegments` — the
inner master's playlist-reference line is treated as a media segment,
fetched, and handed to the transmuxer. -/
theorem master_of_master_downloads_playlist_as_segment :
    downloadHLS ("http://x/m.m3u8").toList
      ("#EXT-X-STREAM-INF:BANDWIDTH=100\nhttp://a/v.m3u8").toList
      (fun _ => some ("#EXT-X-STREAM-INF:BANDWIDTH=200\nhttp://b/low.m3u8").toList)
      (fun _ l => l) (fun _ => false) (fun _ => some [9]) =
      DLResult.transmuxed [[9]] := by
  decide

/-- C4 amended: the manifest fetched after variant selection is never
re-checked for being a master (the hypothesis that it is one plays no role
in the code): its non-comment, non-blank lines — playlist references
included — become the segment list, and the session fails `NoSegments`
exactly when that list is empty. -/
theorem downloadHLS_master_of_master_noSegments_iff (url text : List Char)
    (fetchVariant : List Char → Option (List Char))
    (resolve : List Char → List Char → List Char) (cancelled : Nat → Bool)
    (fetchSeg : Nat → Option Bytes) (u t : List Char)
    (hman : effectiveManifest url text fetchVariant = some (u, t))
    (_hmaster : strContains t ("#EXT-X-STREAM-INF".toList) = true)
    (hdrm : strContains t ("#EXT-X-KEY".toList) = false) :
    (downloadHLS url text fetchVariant resolve cancelled fetchSeg =
        DLResult.noSegments ↔ getSegments resolve u t = []) := by
  rw [downloadHLS_afterManifest url text fetchVariant resolve cancelled fetchSeg u t hman]
  unfold afterManifest
  rw [hdrm]
  simp only [Bool.false_eq_true, if_false]
  by_cases hlen : (getSegments resolve u t).length = 0
  · rw [if_pos hlen]
    exact ⟨fun _ => List.length_eq_zero.mp hlen, fun _ => rfl⟩
  · rw [if_neg hlen]
    constructor
    · intro hc
      by_cases hd : downloadedCount
          (segmentLoop cancelled fetchSeg 0 (getSegments resolve u t).length) = 0
      · rw [if_pos hd] at hc; exact absurd hc (by simp)
      · rw [if_neg hd] at hc; exact absurd hc (by simp)
    · intro hc
      exact absurd (congrArg List.length hc) (by simpa using hlen)

/-- Witness for C4: the concrete master-of-master session of the
counterexample does not end `NoSegments` (its segment list holds the inner
playlist reference). -/
theorem downloadHLS_master_of_master_noSegments_iff_witness :
    ¬ downloadHLS ("http://x/m.m3u8").toList
        ("#EXT-X-STREAM-INF:BANDWIDTH=100\nhttp://a/v.m3u8").toList
        (fun _ => some ("#EXT-X-STREAM-INF:BANDWIDTH=200\nhttp://b/low.m3u8").toList)
        (fun _ l => l) (fun _ => false) (fun _ => some [9]) = DLResult.noSegments :=
  fun hc => absurd ((downloadHLS_master_of_master_noSegments_iff
    ("http://x/m.m3u8").toList
    ("#EXT-X-STREAM-INF:BANDWIDTH=100\nhttp://a/v.m3u8").toList
    (fun _ => some ("#EXT-X-STREAM-INF:BANDWIDTH=200\nhttp://b/low.m3u8").toList)
    (fun _ l => l) (fun _ => false) (fun _ => some [9])
    ("http://a/v.m3u8").toList
    ("#EXT-X-STREAM-INF:BANDWIDTH=200\nhttp://b/low.m3u8").toList
    (by decide) (by decide) (by decide)).mp hc) (by decide)

/-- C10: the quality-selection interface is never given a variant:
`HLSParser.getVariants` returns the empty list unconditionally, and
`handleGetVariants` returns an empty variant list both on a successful
fetch and on a fetch error. -/
theorem handleGetVariants_empty (url : List Char) (fetched : Option (List Char)) :
    handleGetVariants url fetched = [] ∧ getVariants url (fetched.getD []) = [] := by
  cases fetched <;> exact ⟨rfl, rfl⟩

end VidDL
